import Mathlib

/-!
Shallow embedding of the MOZOMBIQ analytics aggregation engine
(src/src/pages/Reports.tsx) and of the sale total computation in the
sale-recording path (src/src/pages/Sales.tsx).

Modelling conventions.  Timestamps are integers (milliseconds since the
epoch); the JavaScript local-midnight truncation `setHours(0,0,0,0)` is
modelled as flooring to a multiple of 86400000 (uniform days; the spec
itself flags the timezone policy of the source as an open question).
Monetary amounts are exact rationals.  A JavaScript object used as an
accumulator map is modelled as an insertion-ordered association list,
matching the string-key insertion order of object literals.  The stable
`Array.prototype.sort` of JavaScript is modelled by a stable insertion
sort (`sortDescBy`), which produces the same list as any stable sort
for the same descending comparator.  The locale date formatter
`toLocaleDateString` is an external display collaborator (out of scope
per the spec), so the month key of `salesByMonth` is supplied as a
function parameter, and a daily bucket carries the truncated numeric
day that the source formats for display.
-/

namespace Mozombiq

/-- A sale record, with the fields the engine reads. -/
structure Sale where
  date : Int
  productId : String
  productName : String
  shopId : String
  quantity : ℕ
  totalAmount : ℚ
  customerName : Option String
  paymentMethod : String
deriving DecidableEq

/-- An expense record, with the fields the engine reads. -/
structure Expense where
  date : Int
  shopId : String
  category : String
  amount : ℚ
deriving DecidableEq

/-- A shop record. -/
structure Shop where
  id : String
  name : String
deriving DecidableEq

/-- A product record; `stock` maps shop ids to quantities. -/
structure Product where
  id : String
  name : String
  category : String
  price : ℚ
  stock : List (String × ℕ)
  minStock : ℕ
deriving DecidableEq

/-- Reports.tsx lines 17-29: date filtering with an early return when both
bounds are empty; a record is dropped when its date is strictly before the
lower bound or strictly after the upper bound. -/
def filterDataByDate {α : Type} (dateOf : α → Int) (dFrom dTo : Option Int)
    (data : List α) : List α :=
  match dFrom, dTo with
  | none, none => data
  | a, b =>
    data.filter fun item =>
      (match a with
       | some f => !decide (dateOf item < f)
       | none => true)
      && (match b with
       | some t => !decide (t < dateOf item)
       | none => true)

/-- Reports.tsx lines 31-34: shop filtering; the empty string means that no
shop is selected. -/
def filterDataByShop {α : Type} (shopOf : α → String) (sel : String)
    (data : List α) : List α :=
  if sel = "" then data else data.filter fun item => shopOf item == sel

/-- Reports.tsx lines 36-38: shop filter applied after the date filter. -/
def getFilteredData {α : Type} (dateOf : α → Int) (shopOf : α → String)
    (sel : String) (dFrom dTo : Option Int) (data : List α) : List α :=
  filterDataByShop shopOf sel (filterDataByDate dateOf dFrom dTo data)

/-- Reports.tsx line 42: the filtered sales list. -/
def filteredSales (sel : String) (dFrom dTo : Option Int)
    (sales : List Sale) : List Sale :=
  getFilteredData Sale.date Sale.shopId sel dFrom dTo sales

/-- Reports.tsx line 43: the filtered expenses list. -/
def filteredExpenses (sel : String) (dFrom dTo : Option Int)
    (expenses : List Expense) : List Expense :=
  getFilteredData Expense.date Expense.shopId sel dFrom dTo expenses

/-- The combined keep-predicate as the specification states it: both date
bounds inclusive, shop filter absent or equal.  Used to compare the filter
pipeline of the source against the specified predicate. -/
def keepPred {α : Type} (dateOf : α → Int) (shopOf : α → String)
    (sel : String) (dFrom dTo : Option Int) (item : α) : Bool :=
  (match dFrom with
   | some f => decide (f ≤ dateOf item)
   | none => true)
  && (match dTo with
   | some t => decide (dateOf item ≤ t)
   | none => true)
  && (sel == "" || shopOf item == sel)

/-- Models a JavaScript `reduce((sum, x) => sum + f(x), 0)`. -/
def reduceSum {α M : Type} [AddCommMonoid M] (f : α → M) (l : List α) : M :=
  l.foldl (fun sum x => sum + f x) 0

/-- One row of the per-shop breakdown (Reports.tsx lines 58-68). -/
structure ShopPerf where
  shopName : String
  sales : ℚ
  expenses : ℚ
  transactions : ℕ
  profit : ℚ
deriving DecidableEq

/-- Reports.tsx lines 58-68: per-shop totals over the filtered records, one
entry per shop in input order. -/
def salesByShop (shops : List Shop) (fs : List Sale) (fe : List Expense) :
    List ShopPerf :=
  shops.map fun shop =>
    ⟨shop.name,
     reduceSum Sale.totalAmount (fs.filter fun s => s.shopId == shop.id),
     reduceSum Expense.amount (fe.filter fun e => e.shopId == shop.id),
     (fs.filter fun s => s.shopId == shop.id).length,
     reduceSum Sale.totalAmount (fs.filter fun s => s.shopId == shop.id)
       - reduceSum Expense.amount (fe.filter fun e => e.shopId == shop.id)⟩

/-- Per-product accumulator record (Reports.tsx lines 71-84). -/
structure ProdAgg where
  name : String
  quantity : ℕ
  revenue : ℚ
  transactions : ℕ
deriving DecidableEq

/-- The three update lines of the product-grouping reduce: add the quantity
and amount of the sale and count one transaction. -/
def incrAgg (v : ProdAgg) (s : Sale) : ProdAgg :=
  ⟨v.name, v.quantity + s.quantity, v.revenue + s.totalAmount,
   v.transactions + 1⟩

/-- One step of the product-grouping reduce (Reports.tsx lines 71-84): create
the entry for the productId of the sale if missing, then add the quantity and
amount of the sale and count one transaction on that entry. -/
def bumpProduct (acc : List (String × ProdAgg)) (s : Sale) :
    List (String × ProdAgg) :=
  (if acc.any fun kv => kv.1 == s.productId then acc
   else acc ++ [(s.productId, ⟨s.productName, 0, 0, 0⟩)]).map fun kv =>
    if kv.1 == s.productId then (kv.1, incrAgg kv.2 s) else kv

/-- Reports.tsx lines 71-84: sales grouped by productId, as an
insertion-ordered association list. -/
def productSales (sales : List Sale) : List (String × ProdAgg) :=
  sales.foldl bumpProduct []

/-- Stable insertion step for a descending sort by `rank`: the new element
goes in front of the first element whose rank is not larger, so an element
arriving earlier stays in front of later elements of equal rank. -/
def insertRanked {α : Type} (rank : α → ℚ) (x : α) : List α → List α
  | [] => [x]
  | y :: ys =>
    if rank y ≤ rank x then x :: y :: ys else y :: insertRanked rank x ys

/-- Stable descending sort by `rank`; models the stable JavaScript
`sort((a, b) => rank(b) - rank(a))`. -/
def sortDescBy {α : Type} (rank : α → ℚ) (l : List α) : List α :=
  l.foldr (insertRanked rank) []

/-- Reports.tsx lines 86-88: grouped product rows sorted by descending
revenue, truncated to ten.  The source drops the productId key at
`Object.values`; the key is retained here so that ordering properties can
name it, the row values are unchanged. -/
def topProducts (sales : List Sale) : List (String × ProdAgg) :=
  (sortDescBy (fun kv => kv.2.revenue) (productSales sales)).take 10

/-- Milliseconds per (uniform) day. -/
def msPerDay : Int := 86400000

/-- Truncation of a timestamp to midnight, modelling `setHours(0,0,0,0)`. -/
def truncDay (t : Int) : Int := t.fdiv msPerDay * msPerDay

/-- A bucket of the daily trend: the truncated day the source compares and
formats, the summed amount, and the transaction count. -/
structure DayBucket where
  date : Int
  amount : ℚ
  transactions : ℕ
deriving DecidableEq

/-- Reports.tsx lines 103-120: the 30 daily buckets, oldest first; bucket
`j` covers the day `29 - j` days before the reference date, and collects
the filtered sales whose truncated date equals that day.  The source
truncates after stepping back whole days, which agrees with stepping back
from the truncated reference date. -/
def dailySales (now : Int) (fs : List Sale) : List DayBucket :=
  (List.range 30).map fun (j : ℕ) =>
    let day := truncDay now - (29 - (j : Int)) * msPerDay
    let daySales := fs.filter fun s => truncDay s.date == day
    ⟨day, reduceSum Sale.totalAmount daySales, daySales.length⟩

/-- The days covered by the 30-day window ending at the reference date,
oldest first; specification-side description of the bucket days. -/
def windowKeys (now : Int) : List Int :=
  (List.range 30).map fun (j : ℕ) => truncDay now - (29 - (j : Int)) * msPerDay

/-- Models `acc[k] = (acc[k] or 0) + v` on an object accumulator. -/
def addToAssoc (acc : List (String × ℚ)) (k : String) (v : ℚ) :
    List (String × ℚ) :=
  if acc.any fun kv => kv.1 == k then
    acc.map fun kv => if kv.1 == k then (kv.1, kv.2 + v) else kv
  else acc ++ [(k, v)]

/-- Reports.tsx lines 51-55: amounts grouped by the month label of the sale
date; the locale month formatter is an external collaborator passed in. -/
def salesByMonth (monthLabel : Int → String) (fs : List Sale) :
    List (String × ℚ) :=
  fs.foldl (fun acc s => addToAssoc acc (monthLabel s.date) s.totalAmount) []

/-- Reports.tsx lines 91-94: amounts grouped by payment method. -/
def paymentMethods (fs : List Sale) : List (String × ℚ) :=
  fs.foldl (fun acc s => addToAssoc acc s.paymentMethod s.totalAmount) []

/-- Reports.tsx lines 97-100: amounts grouped by expense category. -/
def expenseCategories (fe : List Expense) : List (String × ℚ) :=
  fe.foldl (fun acc e => addToAssoc acc e.category e.amount) []

/-- One row of the stock analysis (Reports.tsx lines 123-139). -/
structure StockInfo where
  name : String
  category : String
  totalStock : ℕ
  stockValue : ℚ
  totalSold : ℕ
  turnoverRate : ℚ
  isLowStock : Bool
deriving DecidableEq

/-- Reports.tsx lines 123-139: per-product stock figures. -/
def stockAnalysis (products : List Product) (fs : List Sale) :
    List StockInfo :=
  products.map fun product =>
    let totalStock : ℕ := reduceSum (fun kv => kv.2) product.stock
    let stockValue := (totalStock : ℚ) * product.price
    let productSalesData := fs.filter fun s => s.productId == product.id
    let totalSold := reduceSum Sale.quantity productSalesData
    let turnoverRate :=
      if 0 < totalStock then (totalSold : ℚ) / (totalStock : ℚ) else 0
    ⟨product.name, product.category, totalStock, stockValue, totalSold,
     turnoverRate, decide (totalStock < product.minStock)⟩

/-- Per-customer accumulator record (Reports.tsx lines 142-159). -/
structure CustAgg where
  name : String
  totalSpent : ℚ
  transactions : ℕ
  lastPurchase : Int
deriving DecidableEq

/-- JavaScript truthiness of an optional customer name: present and
nonempty. -/
def isTruthyName (c : Option String) : Bool := !(c.getD "").isEmpty

/-- One step of the customer-grouping reduce (Reports.tsx lines 142-159). -/
def bumpCustomer (acc : List (String × CustAgg)) (s : Sale) :
    List (String × CustAgg) :=
  let key := s.customerName.getD ""
  let acc2 :=
    if acc.any fun kv => kv.1 == key then acc
    else acc ++ [(key, ⟨key, 0, 0, s.date⟩)]
  acc2.map fun kv =>
    if kv.1 == key then
      (kv.1, ⟨kv.2.name, kv.2.totalSpent + s.totalAmount,
              kv.2.transactions + 1,
              if kv.2.lastPurchase < s.date then s.date
              else kv.2.lastPurchase⟩)
    else kv

/-- Reports.tsx lines 142-163: named customers grouped, sorted by descending
total spent, truncated to ten. -/
def topCustomers (fs : List Sale) : List CustAgg :=
  (sortDescBy CustAgg.totalSpent
    (((fs.filter fun s => isTruthyName s.customerName).foldl
        bumpCustomer []).map fun kv => kv.2)).take 10

/-- The analytics result object (Reports.tsx lines 165-180). -/
structure Analytics where
  totalSales : ℚ
  totalExpenses : ℚ
  profit : ℚ
  profitMargin : ℚ
  salesByMonth : List (String × ℚ)
  salesByShop : List ShopPerf
  topProducts : List (String × ProdAgg)
  paymentMethods : List (String × ℚ)
  expenseCategories : List (String × ℚ)
  dailySales : List DayBucket
  stockAnalysis : List StockInfo
  topCustomers : List CustAgg
  totalTransactions : ℕ
  averageTransactionValue : ℚ
deriving DecidableEq

/-- Reports.tsx lines 41-181: the whole analytics computation.  `now` is the
wall-clock reading `new Date()` done by the daily trend, made explicit. -/
def analytics (monthLabel : Int → String) (now : Int)
    (sales : List Sale) (expenses : List Expense)
    (shops : List Shop) (products : List Product)
    (sel : String) (dFrom dTo : Option Int) : Analytics :=
  let fs := filteredSales sel dFrom dTo sales
  let fe := filteredExpenses sel dFrom dTo expenses
  let totalSales := reduceSum Sale.totalAmount fs
  let totalExpenses := reduceSum Expense.amount fe
  let profit := totalSales - totalExpenses
  let profitMargin :=
    if 0 < totalSales then profit / totalSales * 100 else 0
  ⟨totalSales, totalExpenses, profit, profitMargin,
   salesByMonth monthLabel fs,
   salesByShop shops fs fe,
   topProducts fs,
   paymentMethods fs,
   expenseCategories fe,
   dailySales now fs,
   stockAnalysis products fs,
   topCustomers fs,
   fs.length,
   if 0 < fs.length then totalSales / (fs.length : ℚ) else 0⟩

/-- Sales.tsx line 89: `parseFloat(formData.discount) || 0`. -/
def parsedDiscount (d : Option ℚ) : ℚ := d.getD 0

/-- Sales.tsx lines 90-92: subtotal, discount amount and total of a recorded
sale. -/
def saleTotalAmount (price : ℚ) (quantityNum : ℕ) (discount : ℚ) : ℚ :=
  let subtotal := price * (quantityNum : ℚ)
  let discountAmount := subtotal * discount / 100
  subtotal - discountAmount

/-- The keys of an association list. -/
def keysOf {β : Type} (acc : List (String × β)) : List String :=
  acc.map fun kv => kv.1

/-- Append a key when it is not present yet. -/
def addKey (ks : List String) (k : String) : List String :=
  if k ∈ ks then ks else ks ++ [k]

/-- The keys of a list, each kept at its first occurrence. -/
def firstSeen (l : List String) : List String := l.foldl addKey []

/-- Look a key up in an association list. -/
def findVal {β : Type} : List (String × β) → String → Option β
  | [], _ => none
  | kv :: tl, k => if kv.1 == k then some kv.2 else findVal tl k

/-- Index of the first sale carrying the given productId. -/
def firstOcc (sales : List Sale) (k : String) : ℕ :=
  (sales.map Sale.productId).findIdx (· == k)

/-- The grouped record the specification describes: the sums over a list of
matching sales, on top of an optional base record. -/
def combineAgg : Option ProdAgg → List Sale → ProdAgg
  | some v, ms =>
    ⟨v.name, v.quantity + (ms.map Sale.quantity).sum,
     v.revenue + (ms.map Sale.totalAmount).sum, v.transactions + ms.length⟩
  | none, [] => ⟨"", 0, 0, 0⟩
  | none, m :: tl =>
    ⟨m.productName, ((m :: tl).map Sale.quantity).sum,
     ((m :: tl).map Sale.totalAmount).sum, (m :: tl).length⟩

/-- Optional version of `combineAgg`: no base and no matching sale yields no
record. -/
def combineOpt (b : Option ProdAgg) (ms : List Sale) : Option ProdAgg :=
  match b, ms with
  | some v, l => some (combineAgg (some v) l)
  | none, [] => none
  | none, m :: tl => some (combineAgg none (m :: tl))

/-- The empty shop selection, meaning all shops. -/
def noShop : String := ""

/-- A constant month formatter used in concrete instantiations. -/
def mlZero : Int → String := fun _ => ""

/-- Sample records for concrete witnesses. -/
def wSaleA : Sale := ⟨0, "pa", "PA", "sa", 1, 10, none, "cash"⟩

/-- A second sample sale, in another shop, on the next day. -/
def wSaleB : Sale := ⟨86400000, "pb", "PB", "sb", 2, 30, some "Ada", "card"⟩

/-- A third sample sale, same product as the first, other shop. -/
def wSaleC : Sale := ⟨0, "pa", "PA", "sb", 3, 20, none, "cash"⟩

/-- Sample expenses. -/
def wExpA : Expense := ⟨0, "sa", "rent", 4⟩

/-- A second sample expense. -/
def wExpB : Expense := ⟨0, "sb", "fuel", 6⟩

/-- Sample shops. -/
def wShopA : Shop := ⟨"sa", "Shop A"⟩

/-- A second sample shop. -/
def wShopB : Shop := ⟨"sb", "Shop B"⟩

/-- A sample product. -/
def wProduct : Product := ⟨"pa", "PA", "cat", 5, [("sa", 2), ("sb", 1)], 4⟩

/-- Folding addition from a seed equals the seed plus the mapped sum. -/
theorem foldl_add_eq {α M : Type} [AddCommMonoid M] (f : α → M) :
    ∀ (l : List α) (c : M),
      l.foldl (fun sum x => sum + f x) c = c + (l.map f).sum := by
  intro l
  induction l with
  | nil => intro c; simp
  | cons x tl ih => intro c; simp [ih, add_assoc]

/-- A JavaScript reduce of additions is the sum over the mapped list. -/
theorem reduceSum_eq_sum {α M : Type} [AddCommMonoid M] (f : α → M)
    (l : List α) : reduceSum f l = (l.map f).sum := by
  simp [reduceSum, foldl_add_eq]

/-- C8: the totalAmount stored by the sale-recording path, subtotal minus
the percentage discount amount, equals unit price times quantity times one
minus discount over one hundred, in exact rational arithmetic, for every
price, parsed quantity, and parsed discount. -/
theorem saleTotalAmount_eq_specForm (price : ℚ) (quantityNum : ℕ)
    (d : Option ℚ) :
    saleTotalAmount price quantityNum (parsedDiscount d)
      = price * (quantityNum : ℚ) * (1 - parsedDiscount d / 100) := by
  unfold saleTotalAmount
  ring

/-- The date filter of the source, with its early return, is the filter by
the inclusive-bounds predicate. -/
theorem filterDataByDate_eq {α : Type} (dateOf : α → Int)
    (dFrom dTo : Option Int) (data : List α) :
    filterDataByDate dateOf dFrom dTo data
      = data.filter fun item =>
          (match dFrom with
           | some f => decide (f ≤ dateOf item)
           | none => true)
          && (match dTo with
           | some t => decide (dateOf item ≤ t)
           | none => true) := by
  have hb : ∀ a b : Int, (!decide (a < b)) = decide (b ≤ a) := by
    intro a b
    by_cases h : a < b
    · simp [h, not_le.mpr h]
    · simp [h, Int.not_lt.mp h]
  rcases dFrom with _ | f <;> rcases dTo with _ | t
  · simp [filterDataByDate]
  · unfold filterDataByDate
    apply List.filter_congr
    intro a _
    simp [hb]
  · unfold filterDataByDate
    apply List.filter_congr
    intro a _
    simp [hb]
  · unfold filterDataByDate
    apply List.filter_congr
    intro a _
    simp [hb]

/-- The shop filter of the source is the filter by the absent-or-equal
predicate. -/
theorem filterDataByShop_eq {α : Type} (shopOf : α → String) (sel : String)
    (data : List α) :
    filterDataByShop shopOf sel data
      = data.filter fun item => sel == "" || shopOf item == sel := by
  by_cases hsel : sel = ""
  · subst hsel; simp [filterDataByShop]
  · have hb : (sel == "") = false := by simpa using hsel
    simp [filterDataByShop, hsel, hb]

/-- C4: a record is kept by the combined filter exactly when it satisfies
the conjunction of the inclusive date bounds, each applied only when
present, and the absent-or-equal shop test; the pipeline over any record
type, hence over sales and expenses alike, is the filter by this single
predicate. -/
theorem getFilteredData_eq_filter_keepPred {α : Type} (dateOf : α → Int)
    (shopOf : α → String) (sel : String) (dFrom dTo : Option Int)
    (data : List α) :
    getFilteredData dateOf shopOf sel dFrom dTo data
      = data.filter (keepPred dateOf shopOf sel dFrom dTo) := by
  unfold getFilteredData
  rw [filterDataByDate_eq, filterDataByShop_eq, List.filter_filter]
  apply List.filter_congr
  intro a _
  unfold keepPred
  rcases dFrom with _ | f <;> rcases dTo with _ | t <;>
    rcases hs : sel == "" <;> rcases hof : shopOf a == sel <;> simp

/-- C6: the profit margin is profit over revenue times one hundred when the
total revenue is strictly positive, and exactly zero otherwise; the division
sits under an explicit positivity branch. -/
theorem profitMargin_spec (ml : Int → String) (now : Int) (sales : List Sale)
    (expenses : List Expense) (shops : List Shop) (products : List Product)
    (sel : String) (dFrom dTo : Option Int) :
    ((analytics ml now sales expenses shops products sel dFrom dTo).totalSales ≤ 0 →
      (analytics ml now sales expenses shops products sel dFrom dTo).profitMargin = 0)
    ∧ (0 < (analytics ml now sales expenses shops products sel dFrom dTo).totalSales →
      (analytics ml now sales expenses shops products sel dFrom dTo).profitMargin
        = (analytics ml now sales expenses shops products sel dFrom dTo).profit
          / (analytics ml now sales expenses shops products sel dFrom dTo).totalSales
          * 100) := by
  dsimp only [analytics]
  constructor
  · intro h
    rw [if_neg (not_lt.mpr h)]
  · intro h
    rw [if_pos h]

/-- Witness: with one recorded sale the margin formula of the positive
branch holds at a concrete input. -/
theorem profitMargin_spec_witness :
    (analytics mlZero 0 [wSaleA] [wExpA] [] [] noShop none none).profitMargin
      = (analytics mlZero 0 [wSaleA] [wExpA] [] [] noShop none none).profit
        / (analytics mlZero 0 [wSaleA] [wExpA] [] [] noShop none none).totalSales
        * 100 :=
  (profitMargin_spec mlZero 0 [wSaleA] [wExpA] [] [] noShop none none).2
    (by with_unfolding_all decide)

/-- C10: the average transaction value is the total over the number of
filtered sales when that number is positive, and exactly zero when there
are no filtered sales; the division sits under an explicit branch. -/
theorem averageTransactionValue_spec (ml : Int → String) (now : Int)
    (sales : List Sale) (expenses : List Expense) (shops : List Shop)
    (products : List Product) (sel : String) (dFrom dTo : Option Int) :
    ((analytics ml now sales expenses shops products sel dFrom dTo).totalTransactions = 0 →
      (analytics ml now sales expenses shops products sel dFrom dTo).averageTransactionValue = 0)
    ∧ (0 < (analytics ml now sales expenses shops products sel dFrom dTo).totalTransactions →
      (analytics ml now sales expenses shops products sel dFrom dTo).averageTransactionValue
        = (analytics ml now sales expenses shops products sel dFrom dTo).totalSales
          / ((analytics ml now sales expenses shops products sel dFrom dTo).totalTransactions : ℚ)) := by
  dsimp only [analytics]
  constructor
  · intro h
    rw [if_neg]
    omega
  · intro h
    rw [if_pos h]

/-- Witness: with one recorded sale the average transaction value equals
the total over the count at a concrete input. -/
theorem averageTransactionValue_spec_witness :
    (analytics mlZero 0 [wSaleA] [wExpA] [] [] noShop none none).averageTransactionValue
      = (analytics mlZero 0 [wSaleA] [wExpA] [] [] noShop none none).totalSales
        / ((analytics mlZero 0 [wSaleA] [wExpA] [] [] noShop none none).totalTransactions : ℚ) :=
  (averageTransactionValue_spec mlZero 0 [wSaleA] [wExpA] [] [] noShop none none).2
    (by with_unfolding_all decide)

/-- C5: the per-shop breakdown has exactly one entry per input shop, in the
given shop order, including shops with no transactions; the entry of a shop
carries the summed amounts of its sales and of its expenses, its number of
sales, and the difference of the two sums as profit. -/
theorem salesByShop_spec (shops : List Shop) (fs : List Sale)
    (fe : List Expense) :
    (salesByShop shops fs fe).length = shops.length
    ∧ ∀ (i : ℕ) (h1 : i < shops.length)
        (h2 : i < (salesByShop shops fs fe).length),
      (salesByShop shops fs fe).get ⟨i, h2⟩
        = ⟨(shops.get ⟨i, h1⟩).name,
           ((fs.filter fun s => s.shopId == (shops.get ⟨i, h1⟩).id).map
             Sale.totalAmount).sum,
           ((fe.filter fun e => e.shopId == (shops.get ⟨i, h1⟩).id).map
             Expense.amount).sum,
           (fs.filter fun s => s.shopId == (shops.get ⟨i, h1⟩).id).length,
           ((fs.filter fun s => s.shopId == (shops.get ⟨i, h1⟩).id).map
             Sale.totalAmount).sum
             - ((fe.filter fun e => e.shopId == (shops.get ⟨i, h1⟩).id).map
               Expense.amount).sum⟩ := by
  constructor
  · simp [salesByShop]
  · intro i h1 h2
    simp [salesByShop, List.get_eq_getElem, List.getElem_map,
      reduceSum_eq_sum]

/-- Witness: the single-shop breakdown entry at a concrete input. -/
theorem salesByShop_spec_witness :
    (salesByShop [wShopA] [wSaleA] [wExpA]).get ⟨0, by decide⟩
      = ⟨([wShopA].get ⟨0, by decide⟩).name,
         (([wSaleA].filter fun s =>
             s.shopId == ([wShopA].get ⟨0, by decide⟩).id).map
           Sale.totalAmount).sum,
         (([wExpA].filter fun e =>
             e.shopId == ([wShopA].get ⟨0, by decide⟩).id).map
           Expense.amount).sum,
         ([wSaleA].filter fun s =>
             s.shopId == ([wShopA].get ⟨0, by decide⟩).id).length,
         (([wSaleA].filter fun s =>
             s.shopId == ([wShopA].get ⟨0, by decide⟩).id).map
           Sale.totalAmount).sum
           - (([wExpA].filter fun e =>
               e.shopId == ([wShopA].get ⟨0, by decide⟩).id).map
             Expense.amount).sum⟩ :=
  (salesByShop_spec [wShopA] [wSaleA] [wExpA]).2 0 (by decide) (by decide)

/-- C7: one stock row per product: total stock is the sum of the per-shop
quantities, stock value multiplies it by the price, total sold sums the
quantities of the matching sales, the turnover rate divides sold by stock
only under an explicit positivity branch, and the low-stock flag holds
exactly when the total stock is below the minimum. -/
theorem stockAnalysis_spec (products : List Product) (fs : List Sale) :
    (stockAnalysis products fs).length = products.length
    ∧ ∀ (i : ℕ) (h1 : i < products.length)
        (h2 : i < (stockAnalysis products fs).length),
      (stockAnalysis products fs).get ⟨i, h2⟩
        = ⟨(products.get ⟨i, h1⟩).name,
           (products.get ⟨i, h1⟩).category,
           (((products.get ⟨i, h1⟩).stock.map fun kv => kv.2).sum),
           ((((products.get ⟨i, h1⟩).stock.map fun kv => kv.2).sum : ℕ) : ℚ)
             * (products.get ⟨i, h1⟩).price,
           ((fs.filter fun s =>
               s.productId == (products.get ⟨i, h1⟩).id).map
             Sale.quantity).sum,
           (if 0 < ((products.get ⟨i, h1⟩).stock.map fun kv => kv.2).sum then
              ((((fs.filter fun s =>
                    s.productId == (products.get ⟨i, h1⟩).id).map
                  Sale.quantity).sum : ℕ) : ℚ)
                / ((((products.get ⟨i, h1⟩).stock.map fun kv => kv.2).sum : ℕ) : ℚ)
            else 0),
           decide (((products.get ⟨i, h1⟩).stock.map fun kv => kv.2).sum
             < (products.get ⟨i, h1⟩).minStock)⟩
        ∧ (((stockAnalysis products fs).get ⟨i, h2⟩).isLowStock = true
            ↔ ((products.get ⟨i, h1⟩).stock.map fun kv => kv.2).sum
              < (products.get ⟨i, h1⟩).minStock) := by
  constructor
  · simp [stockAnalysis]
  · intro i h1 h2
    constructor
    · simp [stockAnalysis, List.get_eq_getElem, List.getElem_map,
        reduceSum_eq_sum]
    · simp [stockAnalysis, List.get_eq_getElem, List.getElem_map,
        reduceSum_eq_sum]

/-- Witness: the stock row of the sample product at a concrete input. -/
theorem stockAnalysis_spec_witness :
    ((stockAnalysis [wProduct] [wSaleA]).get ⟨0, by decide⟩).isLowStock = true
      ↔ (([wProduct].get ⟨0, by decide⟩).stock.map fun kv => kv.2).sum
        < ([wProduct].get ⟨0, by decide⟩).minStock :=
  ((stockAnalysis_spec [wProduct] [wSaleA]).2 0 (by decide) (by decide)).2

/-- Sums over two disjoint filters add up to the sum over the disjunction
filter. -/
theorem sum_filter_disjoint {α M : Type} [AddCommMonoid M] (f : α → M)
    (p q : α → Bool) (hpq : ∀ a, p a = true → q a = true → False) :
    ∀ l : List α,
      ((l.filter fun a => p a || q a).map f).sum
        = ((l.filter p).map f).sum + ((l.filter q).map f).sum := by
  intro l
  induction l with
  | nil => simp
  | cons x tl ih =>
    by_cases hp : p x = true <;> by_cases hq : q x = true
    · exact absurd (hpq x hp hq) (fun h => h)
    · simp [List.filter_cons, hp, hq, ih, add_assoc]
    · simp [List.filter_cons, hp, hq, ih, add_left_comm]
    · simp [List.filter_cons, hp, hq, ih]

/-- Summing the per-key filtered sums over a duplicate-free key list is
summing over the records whose key belongs to the list. -/
theorem sum_map_filter_key {κ α M : Type} [BEq κ] [LawfulBEq κ]
    [DecidableEq κ] [AddCommMonoid M] (keyOf : α → κ) (f : α → M) :
    ∀ keys : List κ, keys.Nodup → ∀ l : List α,
      (keys.map fun k => ((l.filter fun a => keyOf a == k).map f).sum).sum
        = ((l.filter fun a => decide (keyOf a ∈ keys)).map f).sum := by
  intro keys
  induction keys with
  | nil =>
    intro _ l
    simp
  | cons k ks ih =>
    intro hnd l
    rcases List.nodup_cons.mp hnd with ⟨hk, hks⟩
    have hdisj : ∀ a, (keyOf a == k) = true →
        decide (keyOf a ∈ ks) = true → False := by
      intro a h1 h2
      have h1a : keyOf a = k := by simpa using h1
      have h2a : keyOf a ∈ ks := by simpa using h2
      exact hk (h1a ▸ h2a)
    have hsum := sum_filter_disjoint f (fun a => keyOf a == k)
      (fun a => decide (keyOf a ∈ ks)) hdisj l
    have hcons : ∀ a ∈ l, ((keyOf a == k) || decide (keyOf a ∈ ks))
        = decide (keyOf a ∈ k :: ks) := by
      intro a _
      by_cases h : keyOf a = k
      · simp [h]
      · simp [h, List.mem_cons]
    rw [List.map_cons, List.sum_cons, ih hks l, ← hsum,
      List.filter_congr hcons]

/-- A mapped sum of differences is the difference of the mapped sums. -/
theorem sum_map_sub {α : Type} (f g : α → ℚ) :
    ∀ l : List α,
      (l.map fun x => f x - g x).sum = (l.map f).sum - (l.map g).sum := by
  intro l
  induction l with
  | nil => simp
  | cons x tl ih =>
    simp only [List.map_cons, List.sum_cons, ih]
    ring

/-- Per-shop totals add up to the global totals whenever the shop ids are
duplicate-free and cover every record. -/
theorem salesByShop_totals_aux (shops : List Shop) (fs : List Sale)
    (fe : List Expense) (hnd : (shops.map Shop.id).Nodup)
    (hs : ∀ s ∈ fs, s.shopId ∈ shops.map Shop.id)
    (he : ∀ e ∈ fe, e.shopId ∈ shops.map Shop.id) :
    ((salesByShop shops fs fe).map ShopPerf.sales).sum
        = (fs.map Sale.totalAmount).sum
    ∧ ((salesByShop shops fs fe).map ShopPerf.expenses).sum
        = (fe.map Expense.amount).sum
    ∧ ((salesByShop shops fs fe).map ShopPerf.profit).sum
        = (fs.map Sale.totalAmount).sum - (fe.map Expense.amount).sum := by
  have hfs : fs.filter (fun a => decide (a.shopId ∈ shops.map Shop.id)) = fs :=
    List.filter_eq_self.mpr fun a ha => by simpa using hs a ha
  have hfe : fe.filter (fun a => decide (a.shopId ∈ shops.map Shop.id)) = fe :=
    List.filter_eq_self.mpr fun a ha => by simpa using he a ha
  have hmap1 : (salesByShop shops fs fe).map ShopPerf.sales
      = (shops.map Shop.id).map fun k =>
          ((fs.filter fun s => s.shopId == k).map Sale.totalAmount).sum := by
    simp [salesByShop, List.map_map, reduceSum_eq_sum, Function.comp]
  have hmap2 : (salesByShop shops fs fe).map ShopPerf.expenses
      = (shops.map Shop.id).map fun k =>
          ((fe.filter fun e => e.shopId == k).map Expense.amount).sum := by
    simp [salesByShop, List.map_map, reduceSum_eq_sum, Function.comp]
  have hmap3 : (salesByShop shops fs fe).map ShopPerf.profit
      = (shops.map Shop.id).map fun k =>
          ((fs.filter fun s => s.shopId == k).map Sale.totalAmount).sum
            - ((fe.filter fun e => e.shopId == k).map Expense.amount).sum := by
    simp [salesByShop, List.map_map, reduceSum_eq_sum, Function.comp]
  have h1 : ((salesByShop shops fs fe).map ShopPerf.sales).sum
      = (fs.map Sale.totalAmount).sum := by
    rw [hmap1, sum_map_filter_key Sale.shopId Sale.totalAmount
      (shops.map Shop.id) hnd fs, hfs]
  have h2 : ((salesByShop shops fs fe).map ShopPerf.expenses).sum
      = (fe.map Expense.amount).sum := by
    rw [hmap2, sum_map_filter_key Expense.shopId Expense.amount
      (shops.map Shop.id) hnd fe, hfe]
  refine ⟨h1, h2, ?_⟩
  rw [hmap3, sum_map_sub, sum_map_filter_key Sale.shopId Sale.totalAmount
    (shops.map Shop.id) hnd fs, hfs, sum_map_filter_key Expense.shopId
    Expense.amount (shops.map Shop.id) hnd fe, hfe]

/-- C9: when the shop ids are pairwise distinct and cover every filtered
sale and expense, the per-shop sales fields sum to the total sales, the
per-shop expenses fields sum to the total expenses, and the per-shop
profits sum to their difference. -/
theorem salesByShop_totals (shops : List Shop) (sel : String)
    (dFrom dTo : Option Int) (sales : List Sale) (expenses : List Expense)
    (hnd : (shops.map Shop.id).Nodup)
    (hs : ∀ s ∈ filteredSales sel dFrom dTo sales,
      s.shopId ∈ shops.map Shop.id)
    (he : ∀ e ∈ filteredExpenses sel dFrom dTo expenses,
      e.shopId ∈ shops.map Shop.id) :
    ((salesByShop shops (filteredSales sel dFrom dTo sales)
        (filteredExpenses sel dFrom dTo expenses)).map ShopPerf.sales).sum
      = reduceSum Sale.totalAmount (filteredSales sel dFrom dTo sales)
    ∧ ((salesByShop shops (filteredSales sel dFrom dTo sales)
        (filteredExpenses sel dFrom dTo expenses)).map ShopPerf.expenses).sum
      = reduceSum Expense.amount (filteredExpenses sel dFrom dTo expenses)
    ∧ ((salesByShop shops (filteredSales sel dFrom dTo sales)
        (filteredExpenses sel dFrom dTo expenses)).map ShopPerf.profit).sum
      = reduceSum Sale.totalAmount (filteredSales sel dFrom dTo sales)
        - reduceSum Expense.amount (filteredExpenses sel dFrom dTo expenses) := by
  have := salesByShop_totals_aux shops (filteredSales sel dFrom dTo sales)
    (filteredExpenses sel dFrom dTo expenses) hnd hs he
  simpa [reduceSum_eq_sum] using this

/-- Witness: two shops covering all concrete sales and expenses. -/
theorem salesByShop_totals_witness :
    ((salesByShop [wShopA, wShopB]
        (filteredSales noShop none none [wSaleA, wSaleC])
        (filteredExpenses noShop none none [wExpA, wExpB])).map
      ShopPerf.sales).sum
      = reduceSum Sale.totalAmount
          (filteredSales noShop none none [wSaleA, wSaleC])
    ∧ ((salesByShop [wShopA, wShopB]
        (filteredSales noShop none none [wSaleA, wSaleC])
        (filteredExpenses noShop none none [wExpA, wExpB])).map
      ShopPerf.expenses).sum
      = reduceSum Expense.amount
          (filteredExpenses noShop none none [wExpA, wExpB])
    ∧ ((salesByShop [wShopA, wShopB]
        (filteredSales noShop none none [wSaleA, wSaleC])
        (filteredExpenses noShop none none [wExpA, wExpB])).map
      ShopPerf.profit).sum
      = reduceSum Sale.totalAmount
          (filteredSales noShop none none [wSaleA, wSaleC])
        - reduceSum Expense.amount
            (filteredExpenses noShop none none [wExpA, wExpB]) :=
  salesByShop_totals [wShopA, wShopB] noShop none none [wSaleA, wSaleC]
    [wExpA, wExpB] (by decide) (by with_unfolding_all decide)
    (by with_unfolding_all decide)

/-- The daily trend always has exactly thirty buckets. -/
theorem dailySales_length (now : Int) (fs : List Sale) :
    (dailySales now fs).length = 30 := by
  simp [dailySales]

/-- The bucket at position `i` covers the day `29 - i` days before the
truncated reference date and sums and counts exactly the sales of that
day. -/
theorem dailySales_get (now : Int) (fs : List Sale) (i : ℕ)
    (h : i < (dailySales now fs).length) :
    (dailySales now fs).get ⟨i, h⟩
      = ⟨truncDay now - (29 - (i : Int)) * msPerDay,
         ((fs.filter fun s =>
             truncDay s.date == truncDay now - (29 - (i : Int)) * msPerDay).map
           Sale.totalAmount).sum,
         (fs.filter fun s =>
             truncDay s.date == truncDay now - (29 - (i : Int)) * msPerDay).length⟩ := by
  simp [dailySales, List.get_eq_getElem, List.getElem_map,
    List.getElem_range, reduceSum_eq_sum]

/-- The thirty window days are pairwise distinct. -/
theorem windowKeys_nodup (now : Int) : (windowKeys now).Nodup := by
  unfold windowKeys
  have hinj : Function.Injective
      (fun j : ℕ => truncDay now - (29 - (j : Int)) * msPerDay) := by
    intro a b hab
    simp only [msPerDay] at hab
    omega
  exact List.Nodup.map hinj (List.nodup_range 30)

/-- A truncated date lies among the window days exactly when it lies
between the truncated reference date minus twenty-nine days and the
truncated reference date, both ends included. -/
theorem mem_windowKeys (now x : Int) :
    truncDay x ∈ windowKeys now
      ↔ truncDay now - 29 * msPerDay ≤ truncDay x
        ∧ truncDay x ≤ truncDay now := by
  unfold windowKeys truncDay msPerDay
  constructor
  · intro hmem
    obtain ⟨j, hj, he⟩ := List.mem_map.mp hmem
    rw [List.mem_range] at hj
    constructor <;> omega
  · rintro ⟨h1, h2⟩
    apply List.mem_map.mpr
    refine ⟨(x.fdiv 86400000 - now.fdiv 86400000 + 29).toNat, ?_, ?_⟩
    · rw [List.mem_range]
      omega
    · omega

/-- The bucket amounts of the daily trend sum to the amounts of the sales
whose truncated date lies inside the thirty-day window. -/
theorem dailySales_sum (now : Int) (fs : List Sale) :
    ((dailySales now fs).map DayBucket.amount).sum
      = ((fs.filter fun s =>
            decide (truncDay now - 29 * msPerDay ≤ truncDay s.date)
            && decide (truncDay s.date ≤ truncDay now)).map
          Sale.totalAmount).sum := by
  have h0 : (dailySales now fs).map DayBucket.amount
      = (windowKeys now).map fun k =>
          ((fs.filter fun s => truncDay s.date == k).map
            Sale.totalAmount).sum := by
    simp [dailySales, windowKeys, List.map_map, reduceSum_eq_sum,
      Function.comp]
  rw [h0, sum_map_filter_key (fun s => truncDay s.date) Sale.totalAmount
    (windowKeys now) (windowKeys_nodup now) fs]
  have hcong : ∀ s ∈ fs, decide (truncDay s.date ∈ windowKeys now)
      = (decide (truncDay now - 29 * msPerDay ≤ truncDay s.date)
          && decide (truncDay s.date ≤ truncDay now)) := by
    intro s _
    rw [decide_eq_decide.mpr (mem_windowKeys now s.date)]
    exact Bool.decide_and _ _
  rw [List.filter_congr hcong]

/-- C1: the daily trend of the analytics result has exactly thirty buckets,
one per calendar day with no gaps, bucket `i` covering the day `29 - i`
days before the truncated reference date; each bucket sums and counts the
filtered sales whose date truncated to midnight equals its day; a day
without sales reports amount zero and count zero while staying present;
and the bucket amounts sum to the amounts of the filtered sales whose
truncated date lies inside the window, both bounds included. -/
theorem dailySales_spec (ml : Int → String) (now : Int) (sales : List Sale)
    (expenses : List Expense) (shops : List Shop) (products : List Product)
    (sel : String) (dFrom dTo : Option Int) :
    (analytics ml now sales expenses shops products sel dFrom dTo).dailySales
      = dailySales now (filteredSales sel dFrom dTo sales)
    ∧ (dailySales now (filteredSales sel dFrom dTo sales)).length = 30
    ∧ (∀ (i : ℕ)
        (h : i < (dailySales now (filteredSales sel dFrom dTo sales)).length),
        ((dailySales now (filteredSales sel dFrom dTo sales)).get ⟨i, h⟩).date
            = truncDay now - (29 - (i : Int)) * msPerDay
        ∧ ((dailySales now (filteredSales sel dFrom dTo sales)).get ⟨i, h⟩).amount
            = (((filteredSales sel dFrom dTo sales).filter fun s =>
                  truncDay s.date
                    == ((dailySales now
                        (filteredSales sel dFrom dTo sales)).get ⟨i, h⟩).date).map
                Sale.totalAmount).sum
        ∧ ((dailySales now
              (filteredSales sel dFrom dTo sales)).get ⟨i, h⟩).transactions
            = ((filteredSales sel dFrom dTo sales).filter fun s =>
                  truncDay s.date
                    == ((dailySales now
                        (filteredSales sel dFrom dTo sales)).get ⟨i, h⟩).date).length)
    ∧ (∀ (i : ℕ)
        (h : i < (dailySales now (filteredSales sel dFrom dTo sales)).length),
        (∀ s ∈ filteredSales sel dFrom dTo sales,
          ¬ truncDay s.date
              = ((dailySales now
                  (filteredSales sel dFrom dTo sales)).get ⟨i, h⟩).date) →
        ((dailySales now (filteredSales sel dFrom dTo sales)).get ⟨i, h⟩).amount = 0
        ∧ ((dailySales now
            (filteredSales sel dFrom dTo sales)).get ⟨i, h⟩).transactions = 0)
    ∧ ((dailySales now (filteredSales sel dFrom dTo sales)).map
        DayBucket.amount).sum
      = (((filteredSales sel dFrom dTo sales).filter fun s =>
            decide (truncDay now - 29 * msPerDay ≤ truncDay s.date)
            && decide (truncDay s.date ≤ truncDay now)).map
          Sale.totalAmount).sum := by
  refine ⟨rfl, dailySales_length now _, ?_, ?_, dailySales_sum now _⟩
  · intro i h
    rw [dailySales_get now (filteredSales sel dFrom dTo sales) i h]
    exact ⟨rfl, rfl, rfl⟩
  · intro i h hall
    rw [dailySales_get now (filteredSales sel dFrom dTo sales) i h] at hall ⊢
    have hnil : (filteredSales sel dFrom dTo sales).filter
        (fun s => truncDay s.date
          == truncDay now - (29 - (i : Int)) * msPerDay) = [] := by
      rw [List.filter_eq_nil_iff]
      intro a ha
      simp only [beq_iff_eq]
      exact hall a ha
    constructor
    · simp [hnil]
    · simp [hnil]

/-- Witness: with no sales the trend still has thirty buckets; the oldest
bucket covers the day twenty-nine days back and reports zeroes. -/
theorem dailySales_spec_witness :
    (dailySales 0 (filteredSales noShop none none [])).length = 30
    ∧ ((dailySales 0 (filteredSales noShop none none [])).get
        ⟨0, by decide⟩).date
      = truncDay 0 - (29 - ((0 : ℕ) : Int)) * msPerDay
    ∧ ((dailySales 0 (filteredSales noShop none none [])).get
        ⟨0, by decide⟩).amount = 0
    ∧ ((dailySales 0 (filteredSales noShop none none [])).get
        ⟨0, by decide⟩).transactions = 0 := by
  have h := dailySales_spec mlZero 0 [] [] [] [] noShop none none
  refine ⟨h.2.1, (h.2.2.1 0 (by decide)).1, ?_⟩
  have h0 := h.2.2.2.1 0 (by decide) (by
    intro s hs
    rw [(by decide : filteredSales noShop none none ([] : List Sale) = [])] at hs
    exact absurd hs (List.not_mem_nil s))
  exact h0

/-- C3 counterexample: with the same records and the same filter, two
evaluations at different wall-clock readings give different analytics
results, because the daily trend window follows the clock; the output is
not a function of the input snapshot and filter alone. -/
theorem analytics_reads_clock :
    analytics mlZero 0 [wSaleA] [] [] [] noShop none none
      ≠ analytics mlZero (30 * msPerDay) [wSaleA] [] [] [] noShop none none := by
  intro h
  exact absurd (congrArg Analytics.dailySales h) (by with_unfolding_all decide)

/-- C3 amended: the analytics computation is deterministic once the
wall-clock reading of the daily trend is fixed; every field except
`dailySales` depends only on the input snapshot and the filter, and
`dailySales` depends on them and on the clock reading alone. -/
theorem analytics_deterministic_given_clock (ml : Int → String)
    (t1 t2 : Int) (sales : List Sale) (expenses : List Expense)
    (shops : List Shop) (products : List Product) (sel : String)
    (dFrom dTo : Option Int) :
    analytics ml t1 sales expenses shops products sel dFrom dTo
      = analytics ml t1 sales expenses shops products sel dFrom dTo
    ∧ (analytics ml t1 sales expenses shops products sel dFrom dTo).totalSales
      = (analytics ml t2 sales expenses shops products sel dFrom dTo).totalSales
    ∧ (analytics ml t1 sales expenses shops products sel dFrom dTo).totalExpenses
      = (analytics ml t2 sales expenses shops products sel dFrom dTo).totalExpenses
    ∧ (analytics ml t1 sales expenses shops products sel dFrom dTo).profit
      = (analytics ml t2 sales expenses shops products sel dFrom dTo).profit
    ∧ (analytics ml t1 sales expenses shops products sel dFrom dTo).profitMargin
      = (analytics ml t2 sales expenses shops products sel dFrom dTo).profitMargin
    ∧ (analytics ml t1 sales expenses shops products sel dFrom dTo).salesByMonth
      = (analytics ml t2 sales expenses shops products sel dFrom dTo).salesByMonth
    ∧ (analytics ml t1 sales expenses shops products sel dFrom dTo).salesByShop
      = (analytics ml t2 sales expenses shops products sel dFrom dTo).salesByShop
    ∧ (analytics ml t1 sales expenses shops products sel dFrom dTo).topProducts
      = (analytics ml t2 sales expenses shops products sel dFrom dTo).topProducts
    ∧ (analytics ml t1 sales expenses shops products sel dFrom dTo).paymentMethods
      = (analytics ml t2 sales expenses shops products sel dFrom dTo).paymentMethods
    ∧ (analytics ml t1 sales expenses shops products sel dFrom dTo).expenseCategories
      = (analytics ml t2 sales expenses shops products sel dFrom dTo).expenseCategories
    ∧ (analytics ml t1 sales expenses shops products sel dFrom dTo).stockAnalysis
      = (analytics ml t2 sales expenses shops products sel dFrom dTo).stockAnalysis
    ∧ (analytics ml t1 sales expenses shops products sel dFrom dTo).topCustomers
      = (analytics ml t2 sales expenses shops products sel dFrom dTo).topCustomers
    ∧ (analytics ml t1 sales expenses shops products sel dFrom dTo).totalTransactions
      = (analytics ml t2 sales expenses shops products sel dFrom dTo).totalTransactions
    ∧ (analytics ml t1 sales expenses shops products sel dFrom dTo).averageTransactionValue
      = (analytics ml t2 sales expenses shops products sel dFrom dTo).averageTransactionValue
    ∧ (analytics ml t1 sales expenses shops products sel dFrom dTo).dailySales
      = dailySales t1 (filteredSales sel dFrom dTo sales) :=
  ⟨rfl, rfl, rfl, rfl, rfl, rfl, rfl, rfl, rfl, rfl, rfl, rfl, rfl, rfl, rfl⟩

/-- Inserting an element permutes to consing it in front. -/
theorem insertRanked_perm {α : Type} (rank : α → ℚ) (x : α) :
    ∀ s : List α, (insertRanked rank x s).Perm (x :: s) := by
  intro s
  induction s with
  | nil => exact List.Perm.refl _
  | cons y ys ih =>
    by_cases h : rank y ≤ rank x
    · simp only [insertRanked, if_pos h]
      exact List.Perm.refl _
    · simp only [insertRanked, if_neg h]
      exact (ih.cons y).trans (List.Perm.swap x y ys)

/-- The stable sort permutes its input. -/
theorem sortDescBy_perm {α : Type} (rank : α → ℚ) :
    ∀ l : List α, (sortDescBy rank l).Perm l := by
  intro l
  induction l with
  | nil => exact List.Perm.refl _
  | cons x tl ih =>
    exact (insertRanked_perm rank x (sortDescBy rank tl)).trans (ih.cons x)

/-- Inserting into a descending list keeps it descending. -/
theorem insertRanked_sorted {α : Type} (rank : α → ℚ) (x : α) :
    ∀ s : List α, s.Pairwise (fun a b => rank b ≤ rank a) →
      (insertRanked rank x s).Pairwise fun a b => rank b ≤ rank a := by
  intro s
  induction s with
  | nil =>
    intro _
    exact List.pairwise_singleton _ x
  | cons y ys ih =>
    intro hs
    rcases List.pairwise_cons.mp hs with ⟨hy, hys⟩
    by_cases h : rank y ≤ rank x
    · simp only [insertRanked, if_pos h]
      apply List.pairwise_cons.mpr
      refine ⟨?_, hs⟩
      intro z hz
      rcases List.mem_cons.mp hz with hz1 | hz2
      · subst hz1
        exact h
      · exact le_trans (hy z hz2) h
    · simp only [insertRanked, if_neg h]
      apply List.pairwise_cons.mpr
      refine ⟨?_, ih hys⟩
      intro z hz
      rcases List.mem_cons.mp
          ((insertRanked_perm rank x ys).mem_iff.mp hz) with hz1 | hz2
      · subst hz1
        exact le_of_lt (not_le.mp h)
      · exact hy z hz2

/-- The stable sort orders by non-increasing rank. -/
theorem sortDescBy_sorted {α : Type} (rank : α → ℚ) :
    ∀ l : List α, (sortDescBy rank l).Pairwise fun a b => rank b ≤ rank a := by
  intro l
  induction l with
  | nil => exact List.Pairwise.nil
  | cons x tl ih => exact insertRanked_sorted rank x (sortDescBy rank tl) ih

/-- Insertion keeps every pairwise relation that is guarded by rank
equality, provided the new element relates to the whole list: the passed
elements have strictly larger rank, so the guard is vacuous for them. -/
theorem insertRanked_pairwise_guarded {α : Type} (rank : α → ℚ)
    (Q : α → α → Prop) (x : α) :
    ∀ s : List α,
      s.Pairwise (fun a b => rank a = rank b → Q a b) →
      (∀ y ∈ s, rank x = rank y → Q x y) →
      (insertRanked rank x s).Pairwise fun a b => rank a = rank b → Q a b := by
  intro s
  induction s with
  | nil =>
    intro _ _
    exact List.pairwise_singleton _ x
  | cons y ys ih =>
    intro hs hx
    rcases List.pairwise_cons.mp hs with ⟨hy, hys⟩
    by_cases h : rank y ≤ rank x
    · simp only [insertRanked, if_pos h]
      exact List.pairwise_cons.mpr ⟨hx, hs⟩
    · simp only [insertRanked, if_neg h]
      apply List.pairwise_cons.mpr
      constructor
      · intro z hz
        rcases List.mem_cons.mp
            ((insertRanked_perm rank x ys).mem_iff.mp hz) with hz1 | hz2
        · subst hz1
          intro heq
          exact absurd heq.symm (ne_of_lt (not_le.mp h))
        · exact hy z hz2
      · exact ih hys fun z hz heq => hx z (List.mem_cons_of_mem y hz) heq

/-- Stability of the sort: a pairwise relation of the input survives the
sort on elements of equal rank. -/
theorem sortDescBy_pairwise_guarded {α : Type} (rank : α → ℚ)
    (Q : α → α → Prop) :
    ∀ l : List α, l.Pairwise Q →
      (sortDescBy rank l).Pairwise fun a b => rank a = rank b → Q a b := by
  intro l
  induction l with
  | nil =>
    intro _
    exact List.Pairwise.nil
  | cons x tl ih =>
    intro hl
    rcases List.pairwise_cons.mp hl with ⟨hx, htl⟩
    exact insertRanked_pairwise_guarded rank Q x (sortDescBy rank tl) (ih htl)
      fun y hy _ => hx y ((sortDescBy_perm rank tl).mem_iff.mp hy)

/-- Mapping a key-preserving function does not touch the keys. -/
theorem keysOf_map_of_fst {β : Type} (f : (String × β) → (String × β))
    (hf : ∀ kv, (f kv).1 = kv.1) :
    ∀ acc : List (String × β), keysOf (acc.map f) = keysOf acc := by
  intro acc
  induction acc with
  | nil => rfl
  | cons kv tl ih =>
    unfold keysOf at ih ⊢
    simp only [List.map_cons]
    rw [hf kv, ih]

/-- The per-entry update of the grouping step preserves the key. -/
theorem updProduct_fst (s : Sale) :
    ∀ kv : String × ProdAgg,
      (if kv.1 == s.productId then (kv.1, incrAgg kv.2 s) else kv).1 = kv.1 := by
  intro kv
  by_cases h : (kv.1 == s.productId) <;> simp [h]

/-- One grouping step extends the keys by the productId of the sale when
new, in last position. -/
theorem keysOf_bumpProduct (acc : List (String × ProdAgg)) (s : Sale) :
    keysOf (bumpProduct acc s) = addKey (keysOf acc) s.productId := by
  unfold bumpProduct addKey
  by_cases hmem : s.productId ∈ keysOf acc
  · have hany : (acc.any fun kv => kv.1 == s.productId) = true := by
      rw [List.any_eq_true]
      obtain ⟨kv, hkv, hkveq⟩ := List.mem_map.mp hmem
      exact ⟨kv, hkv, by simp [hkveq]⟩
    rw [hany, if_pos hmem]
    simp only [if_true]
    exact keysOf_map_of_fst _ (updProduct_fst s) acc
  · have hany : (acc.any fun kv => kv.1 == s.productId) = false := by
      rw [List.any_eq_false]
      intro kv hkv hb
      exact hmem (List.mem_map.mpr ⟨kv, hkv, by simpa using hb⟩)
    rw [hany, if_neg hmem]
    simp only [Bool.false_eq_true, if_false]
    refine (keysOf_map_of_fst _ (updProduct_fst s)
      (acc ++ [(s.productId, ⟨s.productName, 0, 0, 0⟩)])).trans ?_
    simp [keysOf]

/-- The keys of the whole grouping fold are the folded keys. -/
theorem keysOf_foldl_bump :
    ∀ (l : List Sale) (acc : List (String × ProdAgg)),
      keysOf (l.foldl bumpProduct acc)
        = (l.map Sale.productId).foldl addKey (keysOf acc) := by
  intro l
  induction l with
  | nil => intro acc; rfl
  | cons s tl ih =>
    intro acc
    simp only [List.foldl_cons, List.map_cons]
    rw [ih, keysOf_bumpProduct]

/-- Membership in the folded key list. -/
theorem mem_foldl_addKey :
    ∀ (l : List String) (acc : List String) (k : String),
      k ∈ l.foldl addKey acc ↔ k ∈ acc ∨ k ∈ l := by
  intro l
  induction l with
  | nil =>
    intro acc k
    simp
  | cons x tl ih =>
    intro acc k
    simp only [List.foldl_cons]
    rw [ih]
    unfold addKey
    by_cases h : x ∈ acc
    · rw [if_pos h]
      constructor
      · rintro (h1 | h2)
        · exact Or.inl h1
        · exact Or.inr (List.mem_cons_of_mem x h2)
      · rintro (h1 | h2)
        · exact Or.inl h1
        · rcases List.mem_cons.mp h2 with h3 | h4
          · exact Or.inl (h3 ▸ h)
          · exact Or.inr h4
    · rw [if_neg h]
      simp only [List.mem_append, List.mem_singleton, List.mem_cons]
      tauto

/-- Appending an absent key keeps the key list duplicate-free. -/
theorem addKey_nodup (ks : List String) (k : String) (h : ks.Nodup) :
    (addKey ks k).Nodup := by
  unfold addKey
  by_cases hk : k ∈ ks
  · rwa [if_pos hk]
  · rw [if_neg hk]
    rw [List.nodup_append]
    refine ⟨h, List.nodup_singleton k, ?_⟩
    intro a ha hb
    rw [List.mem_singleton] at hb
    exact hk (hb ▸ ha)

/-- The folded key list is duplicate-free. -/
theorem nodup_foldl_addKey :
    ∀ (l : List String) (acc : List String), acc.Nodup →
      (l.foldl addKey acc).Nodup := by
  intro l
  induction l with
  | nil => intro acc h; exact h
  | cons x tl ih =>
    intro acc h
    simp only [List.foldl_cons]
    exact ih (addKey acc x) (addKey_nodup acc x h)

/-- A match inside the left part fixes the found index of an appended
list. -/
theorem findIdx_append_of_any {α : Type} (p : α → Bool) :
    ∀ (l m : List α), l.any p = true →
      (l ++ m).findIdx p = l.findIdx p := by
  intro l
  induction l with
  | nil =>
    intro m h
    simp at h
  | cons x tl ih =>
    intro m h
    by_cases hx : p x = true
    · simp [List.findIdx_cons, hx]
    · have htl : tl.any p = true := by
        rcases List.any_eq_true.mp h with ⟨z, hz, hpz⟩
        rcases List.mem_cons.mp hz with h1 | h2
        · exact absurd (h1 ▸ hpz) (by simp [hx])
        · exact List.any_eq_true.mpr ⟨z, h2, hpz⟩
      simp [List.findIdx_cons, hx, ih m htl]

/-- With no match in the left part, the found index skips its length. -/
theorem findIdx_append_of_none {α : Type} (p : α → Bool) :
    ∀ (l m : List α), (∀ a ∈ l, p a = false) →
      (l ++ m).findIdx p = l.length + m.findIdx p := by
  intro l
  induction l with
  | nil =>
    intro m _
    simp
  | cons x tl ih =>
    intro m h
    have hx : p x = false := h x (List.mem_cons_self x tl)
    simp [List.findIdx_cons, hx,
      ih m fun a ha => h a (List.mem_cons_of_mem x ha)]
    omega

/-- The first-seen key list is ordered by the index of the first
occurrence. -/
theorem firstSeen_pairwise (l : List String) :
    (firstSeen l).Pairwise fun a b =>
      l.findIdx (· == a) < l.findIdx (· == b) := by
  induction l using List.reverseRecOn with
  | nil => exact List.Pairwise.nil
  | append_singleton tl x ih =>
    have hfs : firstSeen (tl ++ [x]) = addKey (firstSeen tl) x := by
      unfold firstSeen
      rw [List.foldl_append]
      rfl
    rw [hfs]
    have hmem_sub : ∀ a ∈ firstSeen tl, a ∈ tl := by
      intro a ha
      have := (mem_foldl_addKey tl [] a).mp ha
      simpa using this
    have hidx : ∀ a ∈ tl, (tl ++ [x]).findIdx (· == a) = tl.findIdx (· == a) := by
      intro a ha
      apply findIdx_append_of_any
      exact List.any_eq_true.mpr ⟨a, ha, by simp⟩
    unfold addKey
    by_cases hx : x ∈ firstSeen tl
    · rw [if_pos hx]
      apply List.Pairwise.imp_of_mem ?_ ih
      intro a b hma hmb hab
      rw [hidx a (hmem_sub a hma), hidx b (hmem_sub b hmb)]
      exact hab
    · rw [if_neg hx]
      have hxtl : x ∉ tl :=
        fun hc => hx ((mem_foldl_addKey tl [] x).mpr (Or.inr hc))
      apply List.pairwise_append.mpr
      refine ⟨?_, List.pairwise_singleton _ _, ?_⟩
      · apply List.Pairwise.imp_of_mem ?_ ih
        intro a b hma hmb hab
        rw [hidx a (hmem_sub a hma), hidx b (hmem_sub b hmb)]
        exact hab
      · intro a hma b hmb
        have hbx : b = x := List.mem_singleton.mp hmb
        subst hbx
        rw [hidx a (hmem_sub a hma)]
        have h1 : tl.findIdx (· == a) < tl.length :=
          List.findIdx_lt_length.mpr ⟨a, hmem_sub a hma, by simp⟩
        have h2 : (tl ++ [b]).findIdx (· == b) = tl.length := by
          rw [findIdx_append_of_none]
          · simp [List.findIdx_cons]
          · intro a2 ha2
            rw [beq_eq_false_iff_ne]
            intro hEq
            exact hxtl (hEq ▸ ha2)
        rw [h2]
        exact h1

/-- The keys of the grouped products are the first-seen productIds. -/
theorem productSales_keys (sales : List Sale) :
    keysOf (productSales sales) = firstSeen (sales.map Sale.productId) := by
  unfold productSales firstSeen
  rw [keysOf_foldl_bump]
  rfl

/-- The grouped products carry duplicate-free keys. -/
theorem productSales_keys_nodup (sales : List Sale) :
    (keysOf (productSales sales)).Nodup := by
  rw [productSales_keys]
  exact nodup_foldl_addKey _ [] List.nodup_nil

/-- The grouped products are ordered by the first occurrence of their
productId in the sales list. -/
theorem productSales_pairwise_firstOcc (sales : List Sale) :
    (productSales sales).Pairwise fun a b =>
      firstOcc sales a.1 < firstOcc sales b.1 := by
  have h := firstSeen_pairwise (sales.map Sale.productId)
  rw [← productSales_keys] at h
  unfold keysOf at h
  rw [List.pairwise_map] at h
  exact h

/-- Looking up a key other than the one of the sale ignores the per-entry
update. -/
theorem findVal_map_upd_ne (s : Sale) (k : String) (hk : k ≠ s.productId) :
    ∀ acc : List (String × ProdAgg),
      findVal (acc.map fun kv =>
        if kv.1 == s.productId then (kv.1, incrAgg kv.2 s) else kv) k
        = findVal acc k := by
  intro acc
  induction acc with
  | nil => rfl
  | cons kv tl ih =>
    simp only [List.map_cons, findVal]
    rw [updProduct_fst s kv]
    by_cases h2 : (kv.1 == k)
    · rw [if_pos h2, if_pos h2]
      have hne : (kv.1 == s.productId) = false := by
        rw [beq_eq_false_iff_ne]
        intro hc
        apply hk
        have hkk : kv.1 = k := by simpa using h2
        rw [← hkk, hc]
      simp [hne]
    · rw [if_neg h2, if_neg h2]
      exact ih

/-- Looking up the key of the sale after the per-entry update returns the
bumped record. -/
theorem findVal_map_upd_eq (s : Sale) :
    ∀ acc : List (String × ProdAgg),
      findVal (acc.map fun kv =>
        if kv.1 == s.productId then (kv.1, incrAgg kv.2 s) else kv)
        s.productId
        = (findVal acc s.productId).map fun v => incrAgg v s := by
  intro acc
  induction acc with
  | nil => rfl
  | cons kv tl ih =>
    simp only [List.map_cons, findVal]
    rw [updProduct_fst s kv]
    by_cases h2 : (kv.1 == s.productId)
    · rw [if_pos h2, if_pos h2]
      simp [h2]
    · rw [if_neg h2, if_neg h2]
      exact ih

/-- A key found on the left is found in the appended list. -/
theorem findVal_append_some {β : Type} (k : String) (v : β) :
    ∀ (acc l2 : List (String × β)), findVal acc k = some v →
      findVal (acc ++ l2) k = some v := by
  intro acc
  induction acc with
  | nil =>
    intro l2 h
    cases h
  | cons kv tl ih =>
    intro l2 h
    simp only [findVal, List.cons_append] at h ⊢
    by_cases h2 : (kv.1 == k)
    · rwa [if_pos h2] at h ⊢
    · rw [if_neg h2] at h ⊢
      exact ih l2 h

/-- A key absent on the left is looked up on the right. -/
theorem findVal_append_none {β : Type} (k : String) :
    ∀ (acc l2 : List (String × β)), findVal acc k = none →
      findVal (acc ++ l2) k = findVal l2 k := by
  intro acc
  induction acc with
  | nil =>
    intro l2 _
    rfl
  | cons kv tl ih =>
    intro l2 h
    simp only [findVal, List.cons_append] at h ⊢
    by_cases h2 : (kv.1 == k)
    · rw [if_pos h2] at h
      cases h
    · rw [if_neg h2] at h ⊢
      exact ih l2 h

/-- A key is missing from an association list exactly when no entry
matches it. -/
theorem findVal_eq_none_iff_any {β : Type} (k : String) :
    ∀ acc : List (String × β),
      findVal acc k = none ↔ (acc.any fun kv => kv.1 == k) = false := by
  intro acc
  induction acc with
  | nil => simp [findVal]
  | cons kv tl ih =>
    simp only [findVal, List.any_cons, Bool.or_eq_false_iff]
    by_cases h2 : (kv.1 == k)
    · rw [if_pos h2]
      simp [h2]
    · rw [if_neg h2]
      have h2f : (kv.1 == k) = false := by
        cases hb : (kv.1 == k)
        · rfl
        · exact absurd hb h2
      simp [h2f, ih]

/-- In an association list with duplicate-free keys, every entry is found
under its key. -/
theorem findVal_of_mem {β : Type} :
    ∀ (acc : List (String × β)), (keysOf acc).Nodup →
      ∀ kv ∈ acc, findVal acc kv.1 = some kv.2 := by
  intro acc
  induction acc with
  | nil =>
    intro _ kv hkv
    cases hkv
  | cons hd tl ih =>
    intro hnd kv hkv
    have hnd2 := hnd
    unfold keysOf at hnd2
    rw [List.map_cons, List.nodup_cons] at hnd2
    rcases hnd2 with ⟨hhd, htl⟩
    rcases List.mem_cons.mp hkv with h1 | h2
    · subst h1
      simp [findVal]
    · have hne : (hd.1 == kv.1) = false := by
        rw [beq_eq_false_iff_ne]
        intro hc
        exact hhd (hc ▸ List.mem_map.mpr ⟨kv, h2, rfl⟩)
      simp only [findVal, hne, Bool.false_eq_true, if_false]
      exact ih htl kv h2

/-- One grouping step, seen through lookup: the record under the key of the
sale is bumped, starting fresh when absent; other keys are untouched. -/
theorem findVal_bumpProduct_eq (acc : List (String × ProdAgg)) (s : Sale) :
    findVal (bumpProduct acc s) s.productId
      = some (incrAgg
          (match findVal acc s.productId with
           | some v => v
           | none => ⟨s.productName, 0, 0, 0⟩) s) := by
  unfold bumpProduct
  cases h : findVal acc s.productId with
  | some v =>
    have hany : (acc.any fun kv => kv.1 == s.productId) = true := by
      cases hb : (acc.any fun kv => kv.1 == s.productId)
      · rw [(findVal_eq_none_iff_any s.productId acc).mpr hb] at h
        cases h
      · rfl
    rw [hany]
    simp only [if_true]
    rw [findVal_map_upd_eq s acc, h]
    rfl
  | none =>
    have hany : (acc.any fun kv => kv.1 == s.productId) = false :=
      (findVal_eq_none_iff_any s.productId acc).mp h
    rw [hany]
    simp only [Bool.false_eq_true, if_false]
    have e1 := findVal_map_upd_eq s
      (acc ++ [(s.productId, (⟨s.productName, 0, 0, 0⟩ : ProdAgg))])
    rw [e1, findVal_append_none s.productId acc _ h]
    simp [findVal]

/-- One grouping step does not touch records under other keys. -/
theorem findVal_bumpProduct_ne (acc : List (String × ProdAgg)) (s : Sale)
    (k : String) (hk : k ≠ s.productId) :
    findVal (bumpProduct acc s) k = findVal acc k := by
  unfold bumpProduct
  cases hany : (acc.any fun kv => kv.1 == s.productId)
  · simp only [Bool.false_eq_true, if_false]
    have e1 := findVal_map_upd_ne s k hk
      (acc ++ [(s.productId, (⟨s.productName, 0, 0, 0⟩ : ProdAgg))])
    rw [e1]
    cases h : findVal acc k with
    | some v => exact findVal_append_some k v acc _ h
    | none =>
      rw [findVal_append_none k acc _ h]
      have hne : (s.productId == k) = false := by
        rw [beq_eq_false_iff_ne]
        exact fun hc => hk hc.symm
      simp [findVal, hne]
  · simp only [if_true]
    exact findVal_map_upd_ne s k hk acc

/-- A bump step keeps the keys duplicate-free. -/
theorem keysOf_bumpProduct_nodup (acc : List (String × ProdAgg)) (s : Sale)
    (h : (keysOf acc).Nodup) : (keysOf (bumpProduct acc s)).Nodup := by
  rw [keysOf_bumpProduct]
  exact addKey_nodup _ _ h

/-- The whole grouping fold, seen through lookup: the record under a key
combines the start record, when present, with the matching sales. -/
theorem findVal_foldl_bump :
    ∀ (l : List Sale) (acc : List (String × ProdAgg)),
      (keysOf acc).Nodup → ∀ k : String,
      findVal (l.foldl bumpProduct acc) k
        = combineOpt (findVal acc k) (l.filter fun s => s.productId == k) := by
  intro l
  induction l with
  | nil =>
    intro acc _ k
    simp only [List.foldl_nil, List.filter_nil]
    cases h : findVal acc k with
    | none => rfl
    | some v =>
      show some v = some (combineAgg (some v) [])
      cases v
      simp [combineAgg]
  | cons s tl ih =>
    intro acc hnd k
    simp only [List.foldl_cons, List.filter_cons]
    rw [ih (bumpProduct acc s) (keysOf_bumpProduct_nodup acc s hnd) k]
    by_cases hsk : (s.productId == k)
    · rw [if_pos hsk]
      have hk : s.productId = k := by simpa using hsk
      subst hk
      rw [findVal_bumpProduct_eq]
      cases h : findVal acc s.productId with
      | some v =>
        show combineOpt (some (incrAgg v s)) (tl.filter fun a => a.productId == s.productId)
          = combineOpt (some v) (s :: tl.filter fun a => a.productId == s.productId)
        unfold combineOpt combineAgg incrAgg
        simp only [List.map_cons, List.sum_cons, List.length_cons,
          Option.some.injEq, ProdAgg.mk.injEq]
        refine ⟨trivial, by omega, by ring, by omega⟩
      | none =>
        show combineOpt (some (incrAgg ⟨s.productName, 0, 0, 0⟩ s))
            (tl.filter fun a => a.productId == s.productId)
          = combineOpt none (s :: tl.filter fun a => a.productId == s.productId)
        unfold combineOpt combineAgg incrAgg
        simp only [List.map_cons, List.sum_cons, List.length_cons,
          Option.some.injEq, ProdAgg.mk.injEq]
        refine ⟨trivial, by omega, by ring, by omega⟩
    · rw [if_neg hsk]
      have hkne : k ≠ s.productId := by
        intro hc
        exact hsk (by simp [hc])
      rw [findVal_bumpProduct_ne acc s k hkne]

/-- Every grouped entry carries the summed quantity, the summed amount,
and the count of its matching sales, and comes from at least one sale. -/
theorem productSales_entry (sales : List Sale) (kv : String × ProdAgg)
    (hkv : kv ∈ productSales sales) :
    kv.2.quantity
      = ((sales.filter fun s => s.productId == kv.1).map Sale.quantity).sum
    ∧ kv.2.revenue
      = ((sales.filter fun s => s.productId == kv.1).map Sale.totalAmount).sum
    ∧ kv.2.transactions
      = (sales.filter fun s => s.productId == kv.1).length
    ∧ 1 ≤ kv.2.transactions := by
  have hfind : findVal (productSales sales) kv.1 = some kv.2 :=
    findVal_of_mem (productSales sales) (productSales_keys_nodup sales) kv hkv
  have hL := findVal_foldl_bump sales [] (by simp [keysOf]) kv.1
  unfold productSales at hfind
  rw [hfind] at hL
  cases hms : sales.filter (fun s => s.productId == kv.1) with
  | nil =>
    rw [hms] at hL
    cases hL
  | cons m mtl =>
    rw [hms] at hL
    have hv : kv.2 = combineAgg none (m :: mtl) := by
      have := hL
      unfold combineOpt at this
      exact Option.some.inj this
    rw [hv]
    unfold combineAgg
    refine ⟨rfl, rfl, rfl, by simp⟩

/-- C2: the top products are at most ten rows, sorted by non-increasing
revenue; every row aggregates the quantity, amount, and count of the sales
of its productId and stems from at least one sale, so no zero-sales
product appears; and rows of equal revenue keep the first-seen order of
their productIds in the sales list. -/
theorem topProducts_spec (sales : List Sale) :
    (topProducts sales).length ≤ 10
    ∧ (topProducts sales).Pairwise (fun a b => b.2.revenue ≤ a.2.revenue)
    ∧ (∀ kv ∈ topProducts sales,
        kv.2.quantity
          = ((sales.filter fun s => s.productId == kv.1).map Sale.quantity).sum
        ∧ kv.2.revenue
          = ((sales.filter fun s => s.productId == kv.1).map Sale.totalAmount).sum
        ∧ kv.2.transactions
          = (sales.filter fun s => s.productId == kv.1).length
        ∧ 1 ≤ kv.2.transactions)
    ∧ (topProducts sales).Pairwise fun a b =>
        a.2.revenue = b.2.revenue →
          firstOcc sales a.1 < firstOcc sales b.1 := by
  refine ⟨?_, ?_, ?_, ?_⟩
  · exact List.length_take_le 10 _
  · exact List.Pairwise.sublist (List.take_sublist 10 _)
      (sortDescBy_sorted _ (productSales sales))
  · intro kv hkv
    have h1 : kv ∈ sortDescBy (fun kv => kv.2.revenue) (productSales sales) :=
      (List.take_sublist 10 _).subset hkv
    have h2 : kv ∈ productSales sales :=
      (sortDescBy_perm _ (productSales sales)).mem_iff.mp h1
    exact productSales_entry sales kv h2
  · exact List.Pairwise.sublist (List.take_sublist 10 _)
      (sortDescBy_pairwise_guarded _ _ (productSales sales)
        (productSales_pairwise_firstOcc sales))

/-- Witness: two sales of the same product collapse into one aggregated
row with the summed figures at a concrete input. -/
theorem topProducts_spec_witness :
    (topProducts [wSaleA, wSaleC]).length ≤ 10
    ∧ ((wSaleA.productId,
        (⟨wSaleA.productName, 4, 30, 2⟩ : ProdAgg)) : String × ProdAgg).2.revenue
      = (([wSaleA, wSaleC].filter fun s =>
          s.productId == ((wSaleA.productId,
            (⟨wSaleA.productName, 4, 30, 2⟩ : ProdAgg)) : String × ProdAgg).1).map
        Sale.totalAmount).sum
    ∧ 1 ≤ ((wSaleA.productId,
        (⟨wSaleA.productName, 4, 30, 2⟩ : ProdAgg)) : String × ProdAgg).2.transactions := by
  have h := topProducts_spec [wSaleA, wSaleC]
  have hm := h.2.2.1
    (wSaleA.productId, (⟨wSaleA.productName, 4, 30, 2⟩ : ProdAgg))
    (by with_unfolding_all decide)
  exact ⟨h.1, hm.2.1, hm.2.2.2⟩

end Mozombiq
